import Mathlib

/-!
Verification of `src/06-promises-tasks.js` (core-js-101 promise exercises).

The host promise runtime is single-threaded: each settlement callback runs
atomically, in the order the tasks settle.  We therefore embed the functions
as pure state machines over the sequence of task settlements:

* a task's eventual settlement is an `Outcome` (fulfilled with a value, or
  rejected with an error);
* the tasks are given in input order as a `List (Outcome α ε)`, and a
  schedule `order : List Nat` (a permutation of the indices) gives the order
  in which they settle;
* the promise returned by each function is described by a `PResult`:
  resolved, rejected, or forever pending.
-/

/-- Eventual settlement of a single input task. -/
inductive Outcome (α ε : Type) where
  | fulfilled (value : α)
  | rejected (error : ε)
deriving DecidableEq, Repr

/-- Final status of a promise returned by one of the functions under
verification: it resolves, rejects, or never settles. -/
inductive PResult (α ε : Type) where
  | resolved (value : α)
  | rejectedWith (error : ε)
  | pending
deriving DecidableEq, Repr

/-- `true` exactly on a fulfilled outcome. -/
def Outcome.isFulfilled : Outcome α ε → Bool
  | Outcome.fulfilled _ => true
  | Outcome.rejected _ => false

/-- The success value of an outcome, if any. -/
def Outcome.successValue : Outcome α ε → Option α
  | Outcome.fulfilled v => some v
  | Outcome.rejected _ => none

/-- `true` exactly on a rejected promise result. -/
def PResult.isRejected : PResult α ε → Bool
  | PResult.rejectedWith _ => true
  | _ => false

/-- A settled promise viewed as a promise result (`then` fires on a
fulfilled outcome, `catch` on a rejected one). -/
def toPResult : Outcome α ε → PResult α ε
  | Outcome.fulfilled v => PResult.resolved v
  | Outcome.rejected e => PResult.rejectedWith e

/-- The settlement-order sequence of task outcomes: the task at each index
of `order` settles next. -/
def settlementSeq (tasks : List (Outcome α ε)) (order : List Nat) :
    List (Outcome α ε) :=
  order.filterMap fun i => tasks.get? i

/-- Successful values of a sequence of outcomes, in sequence order. -/
def successValues (events : List (Outcome α ε)) : List α :=
  events.filterMap Outcome.successValue

/-- Internal state of `chainPromises` while the input tasks settle:
`results` is the `results` array, `promisesCompleted` the settlement
counter, `inner` the settlement (if any) of the inner `allProms` promise,
and `innerCalls` the number of times the inner `resolve` has been called. -/
structure ChainState (α : Type) where
  results : List α
  promisesCompleted : Nat
  inner : Option (List α)
  innerCalls : Nat
deriving Repr

/-- A promise settles once: a second `resolve` call has no effect. -/
def resolveOnce (cur : Option β) (v : β) : Option β :=
  match cur with
  | some w => some w
  | none => some v

/-- One settlement callback of `chainPromises`: a fulfilled task pushes its
value and increments the counter, a rejected task only increments the
counter; either way, when the counter reaches `n = array.length` the inner
promise is resolved with the current `results` array. -/
def chainStep (n : Nat) (st : ChainState α) (ev : Outcome α ε) :
    ChainState α :=
  match ev with
  | Outcome.fulfilled v =>
      let results := st.results ++ [v]
      let completed := st.promisesCompleted + 1
      if completed = n then
        { results := results, promisesCompleted := completed,
          inner := resolveOnce st.inner results,
          innerCalls := st.innerCalls + 1 }
      else
        { results := results, promisesCompleted := completed,
          inner := st.inner, innerCalls := st.innerCalls }
  | Outcome.rejected _ =>
      let completed := st.promisesCompleted + 1
      if completed = n then
        { results := st.results, promisesCompleted := completed,
          inner := resolveOnce st.inner st.results,
          innerCalls := st.innerCalls + 1 }
      else
        { results := st.results, promisesCompleted := completed,
          inner := st.inner, innerCalls := st.innerCalls }

/-- Initial state: empty `results`, counter `0`, inner promise pending. -/
def chainInit : ChainState α := ⟨[], 0, none, 0⟩

/-- Run the settlement callbacks of `chainPromises` over a settlement
sequence. -/
def runChain (n : Nat) (events : List (Outcome α ε)) : ChainState α :=
  events.foldl (chainStep n) chainInit

/-- `List.foldl`, also returning the list of `(accumulator, element)`
argument pairs the binary operation was applied to, in order. -/
def foldTrace (action : α → α → α) : α → List α → α × List (α × α)
  | a, [] => (a, [])
  | a, x :: xs =>
      let rest := foldTrace action (action a x) xs
      (rest.1, (a, x) :: rest.2)

/-- JavaScript `Array.prototype.reduce` with no initial value: on an empty
array it throws a `TypeError` without ever calling the callback; otherwise
it left-folds with the first element as seed.  Returns the result together
with the trace of callback invocations. -/
def reduceJS (action : α → α → α) :
    List α → Except Unit (α × List (α × α))
  | [] => Except.error ()
  | x :: xs => Except.ok (foldTrace action x xs)

/-- `chainPromises(array, action)`: the returned promise resolves with
`values.reduce(action)` once the inner promise has resolved with the
collected `results`; if the reduce throws (empty `results`), the throw
happens inside the `then` callback, so the outer `res` is never called and
the returned promise stays pending.  The outer executor has no `reject`,
so the returned promise can never reject. -/
def chainPromises (tasks : List (Outcome α ε)) (order : List Nat)
    (action : α → α → α) : PResult α ε :=
  match (runChain tasks.length (settlementSeq tasks order)).inner with
  | none => PResult.pending
  | some values =>
      match reduceJS action values with
      | Except.ok r => PResult.resolved r.1
      | Except.error _ => PResult.pending

/-- The trace of invocations of `action` made by `chainPromises`. -/
def chainActionTrace (tasks : List (Outcome α ε)) (order : List Nat)
    (action : α → α → α) : List (α × α) :=
  match (runChain tasks.length (settlementSeq tasks order)).inner with
  | none => []
  | some values =>
      match reduceJS action values with
      | Except.ok r => r.2
      | Except.error _ => []

/-- Number of calls `chainPromises` makes to the outer `res`: one if the
inner promise resolved and the reduce returned, zero otherwise. -/
def chainResCalls (tasks : List (Outcome α ε)) (order : List Nat)
    (action : α → α → α) : Nat :=
  match (runChain tasks.length (settlementSeq tasks order)).inner with
  | none => 0
  | some values =>
      match reduceJS action values with
      | Except.ok _ => 1
      | Except.error _ => 0

/-- Modelled from the spec: the aggregate-all delegate (`Promise.all`, a
host primitive not in this repository) applied to the settlement of every
task.  Per the spec it "succeeds with the N-length ordered sequence of all
successful values (input order preserved) or fails on the first failure";
`firstRejection` scans the settlement schedule for the first task to
settle with a failure. -/
def firstRejection (tasks : List (Outcome α ε)) (order : List Nat) :
    Option ε :=
  match order with
  | [] => none
  | i :: rest =>
      match tasks.get? i with
      | some (Outcome.rejected e) => some e
      | _ => firstRejection tasks rest

/-- Modelled from the spec: the settled outcome of the aggregate-all
delegate (`Promise.all`): rejected with the first failure in settlement
order, else fulfilled with all values in input order. -/
def promiseAll (tasks : List (Outcome α ε)) (order : List Nat) :
    Outcome (List α) ε :=
  match firstRejection tasks order with
  | some e => Outcome.rejected e
  | none => Outcome.fulfilled (successValues tasks)

/-- `processAllPromises(array)`: a `new Promise` wrapper whose executor
forwards the aggregate-all delegate's settlement — `all.then(values =>
resolve(values))` and `all.catch(err => reject(err))`. -/
def processAllPromises (tasks : List (Outcome α ε)) (order : List Nat) :
    PResult (List α) ε :=
  match promiseAll tasks order with
  | Outcome.fulfilled values => PResult.resolved values
  | Outcome.rejected err => PResult.rejectedWith err

/-- Modelled from the spec: the first-to-settle delegate (`Promise.race`,
a host primitive not in this repository) "settles identically to whichever
input task settles first", i.e. the task scheduled first; with no tasks it
never settles. -/
def promiseRace (tasks : List (Outcome α ε)) (order : List Nat) :
    Option (Outcome α ε) :=
  match order with
  | [] => none
  | i :: _ => tasks.get? i

/-- `getFastestPromise(array)`: a `new Promise` wrapper whose executor
forwards the first-to-settle delegate's settlement — `race.then(values =>
resolve(values))` and `race.catch(err => reject(err))`. -/
def getFastestPromise (tasks : List (Outcome α ε)) (order : List Nat) :
    PResult α ε :=
  match promiseRace tasks order with
  | none => PResult.pending
  | some (Outcome.fulfilled v) => PResult.resolved v
  | some (Outcome.rejected e) => PResult.rejectedWith e

/-- A JavaScript argument as seen by `willYouMarryMe`: a boolean, the
missing argument (`undefined`), or any other non-boolean value carrying
only its truthiness. -/
inductive JSArg where
  | boolean (b : Bool)
  | undef
  | other (truthy : Bool)
deriving DecidableEq, Repr

/-- `typeof argument === 'boolean'`. -/
def JSArg.isBooleanType : JSArg → Bool
  | JSArg.boolean _ => true
  | _ => false

/-- JavaScript truthiness of the argument (`undefined` is falsy). -/
def JSArg.truthyVal : JSArg → Bool
  | JSArg.boolean b => b
  | JSArg.undef => false
  | JSArg.other t => t

/-- One call the executor makes to `resolve` or `reject`. -/
inductive SettleCall (α ε : Type) where
  | resolveCall (v : α)
  | rejectCall (e : ε)
deriving DecidableEq, Repr

/-- Single-settlement guarantee: a promise takes the first `resolve` or
`reject` call its executor makes; later calls have no effect. -/
def firstSettle : List (SettleCall α ε) → PResult α ε
  | [] => PResult.pending
  | SettleCall.resolveCall v :: _ => PResult.resolved v
  | SettleCall.rejectCall e :: _ => PResult.rejectedWith e

/-- `willYouMarryMe(isPositiveAnswer)`: the executor first rejects with an
`Error` (modelled by its message) when the argument is not a boolean, then
unconditionally resolves with the ternary's answer; the promise keeps the
first settlement. -/
def willYouMarryMe (isPositiveAnswer : JSArg) : PResult String String :=
  let calls :=
    (if isPositiveAnswer.isBooleanType then []
     else [SettleCall.rejectCall "Wrong parameter is passed! Ask her again."]) ++
    [SettleCall.resolveCall
      (if isPositiveAnswer.truthyVal then "Hooray!!! She said \"Yes\"!"
       else "Oh no, she said \"No\".")]
  firstSettle calls

/-! ### Lemmas about the settlement run of `chainPromises` -/

lemma chainStep_promisesCompleted (n : Nat) (st : ChainState α)
    (ev : Outcome α ε) :
    (chainStep n st ev).promisesCompleted = st.promisesCompleted + 1 := by
  cases ev <;> simp only [chainStep] <;> split <;> rfl

lemma chainStep_of_ne (n : Nat) (st : ChainState α) (ev : Outcome α ε)
    (h : st.promisesCompleted + 1 ≠ n) :
    chainStep n st ev =
      { results := st.results ++ (Outcome.successValue ev).toList,
        promisesCompleted := st.promisesCompleted + 1,
        inner := st.inner, innerCalls := st.innerCalls } := by
  cases ev <;> simp [chainStep, h, Outcome.successValue]

lemma successValues_cons (e : Outcome α ε) (rest : List (Outcome α ε)) :
    successValues (e :: rest) =
      (Outcome.successValue e).toList ++ successValues rest := by
  cases e <;> simp [successValues, Outcome.successValue]

lemma foldl_chainStep_early (n : Nat) (evs : List (Outcome α ε)) :
    ∀ st : ChainState α, st.promisesCompleted + evs.length < n →
      (evs.foldl (chainStep n) st).inner = st.inner ∧
      (evs.foldl (chainStep n) st).innerCalls = st.innerCalls := by
  induction evs with
  | nil => intro st _; exact ⟨rfl, rfl⟩
  | cons e rest ih =>
      intro st h
      have hne : st.promisesCompleted + 1 ≠ n := by
        simp only [List.length_cons] at h; omega
      have h2 : st.promisesCompleted + 1 + rest.length < n := by
        simp only [List.length_cons] at h; omega
      simp only [List.foldl_cons, chainStep_of_ne n st e hne]
      exact ih _ h2

lemma foldl_chainStep_run (n : Nat) (evs : List (Outcome α ε)) :
    ∀ st : ChainState α, st.inner = none → st.innerCalls = 0 →
      st.promisesCompleted + evs.length = n → evs ≠ [] →
      evs.foldl (chainStep n) st =
        ⟨st.results ++ successValues evs, n,
         some (st.results ++ successValues evs), 1⟩ := by
  induction evs with
  | nil => intro st _ _ _ hne; exact absurd rfl hne
  | cons e rest ih =>
      intro st hinner hcalls hlen _
      cases rest with
      | nil =>
          have hn : st.promisesCompleted + 1 = n := by simpa using hlen
          cases e with
          | fulfilled v =>
              simp [List.foldl_cons, chainStep, hn, resolveOnce, hinner,
                    hcalls, successValues, Outcome.successValue]
          | rejected err =>
              simp [List.foldl_cons, chainStep, hn, resolveOnce, hinner,
                    hcalls, successValues, Outcome.successValue]
      | cons e2 rest2 =>
          have hne : st.promisesCompleted + 1 ≠ n := by
            simp only [List.length_cons] at hlen; omega
          rw [List.foldl_cons, chainStep_of_ne n st e hne,
              ih { results := st.results ++ (Outcome.successValue e).toList,
                   promisesCompleted := st.promisesCompleted + 1,
                   inner := st.inner, innerCalls := st.innerCalls }
                hinner hcalls
                (by simp only [List.length_cons] at hlen ⊢; omega) (by simp)]
          simp [successValues_cons, List.append_assoc]

lemma runChain_eq (evs : List (Outcome α ε)) (hne : evs ≠ []) :
    runChain evs.length evs =
      ⟨successValues evs, evs.length, some (successValues evs), 1⟩ := by
  have h := foldl_chainStep_run evs.length evs chainInit rfl rfl
    (by simp [chainInit]) hne
  simpa [runChain, chainInit] using h

/-! ### From the schedule hypothesis to the settlement sequence -/

lemma settlementSeq_length (tasks : List (Outcome α ε)) (order : List Nat)
    (h : ∀ i ∈ order, i < tasks.length) :
    (settlementSeq tasks order).length = order.length := by
  unfold settlementSeq
  refine List.filterMap_length_eq_length.mpr ?_
  intro i hi
  have hlt := h i hi
  simp [List.get?_eq_get hlt, List.getElem?_eq_getElem hlt]

lemma settlementSeq_length_of_perm (tasks : List (Outcome α ε))
    (order : List Nat) (hperm : order.Perm (List.range tasks.length)) :
    (settlementSeq tasks order).length = tasks.length := by
  have hbound : ∀ i ∈ order, i < tasks.length := by
    intro i hi
    have hmem : i ∈ List.range tasks.length := hperm.subset hi
    simpa using hmem
  rw [settlementSeq_length tasks order hbound, hperm.length_eq,
      List.length_range]

lemma mem_settlementSeq (tasks : List (Outcome α ε)) (order : List Nat)
    (e : Outcome α ε) (he : e ∈ settlementSeq tasks order) : e ∈ tasks := by
  rcases List.mem_filterMap.mp he with ⟨i, _, hget⟩
  exact List.get?_mem hget

lemma chain_inner_eq (tasks : List (Outcome α ε)) (order : List Nat)
    (hperm : order.Perm (List.range tasks.length)) (hne : tasks ≠ []) :
    runChain tasks.length (settlementSeq tasks order) =
      ⟨successValues (settlementSeq tasks order), tasks.length,
       some (successValues (settlementSeq tasks order)), 1⟩ := by
  have hlen := settlementSeq_length_of_perm tasks order hperm
  have hne2 : settlementSeq tasks order ≠ [] := by
    intro h
    rw [h] at hlen
    have hpos : 0 < tasks.length := List.length_pos.mpr hne
    simp at hlen
    omega
  have h := runChain_eq (settlementSeq tasks order) hne2
  rw [hlen] at h
  exact h

lemma foldTrace_fst (action : α → α → α) (xs : List α) :
    ∀ a, (foldTrace action a xs).1 = xs.foldl action a := by
  induction xs with
  | nil => intro a; rfl
  | cons x xs ih => intro a; simp [foldTrace, List.foldl_cons, ih]

lemma chainPromises_of_values (tasks : List (Outcome α ε)) (order : List Nat)
    (action : α → α → α) (v : α) (vs : List α)
    (hperm : order.Perm (List.range tasks.length)) (hne : tasks ≠ [])
    (hvals : successValues (settlementSeq tasks order) = v :: vs) :
    chainPromises tasks order action = PResult.resolved (vs.foldl action v) := by
  unfold chainPromises
  rw [chain_inner_eq tasks order hperm hne, hvals]
  simp [reduceJS, foldTrace_fst]

lemma chainPromises_empty_success (tasks : List (Outcome α ε))
    (order : List Nat) (action : α → α → α)
    (hperm : order.Perm (List.range tasks.length)) (hne : tasks ≠ [])
    (hvals : successValues (settlementSeq tasks order) = []) :
    chainPromises tasks order action = PResult.pending ∧
    chainActionTrace tasks order action = [] := by
  have hinner := chain_inner_eq tasks order hperm hne
  constructor
  · unfold chainPromises
    rw [hinner, hvals]
    rfl
  · unfold chainActionTrace
    rw [hinner, hvals]
    rfl

lemma successValues_nil_of_empty (order : List Nat) :
    successValues (settlementSeq ([] : List (Outcome α ε)) order) = [] := by
  induction order with
  | nil => rfl
  | cons i rest ih => simp [settlementSeq, successValues]

lemma firstRejection_eq_none (tasks : List (Outcome α ε)) (order : List Nat)
    (hall : ∀ t ∈ tasks, t.isFulfilled = true) :
    firstRejection tasks order = none := by
  induction order with
  | nil => rfl
  | cons i rest ih =>
      rw [firstRejection]
      cases hget : tasks.get? i with
      | none => exact ih
      | some t =>
          cases t with
          | fulfilled v => exact ih
          | rejected e =>
              have hmem := List.get?_mem hget
              have := hall _ hmem
              simp [Outcome.isFulfilled] at this

lemma successValues_length_of_all (tasks : List (Outcome α ε))
    (hall : ∀ t ∈ tasks, t.isFulfilled = true) :
    (successValues tasks).length = tasks.length := by
  refine List.filterMap_length_eq_length.mpr ?_
  intro t ht
  have := hall t ht
  cases t with
  | fulfilled v => rfl
  | rejected e => simp [Outcome.isFulfilled] at this

/-! ### Claims -/

/-- C1: for a non-empty array of tasks that all succeed, `chainPromises`
resolves with `action` folded left over the successful values in the order
the tasks settled, using the first settled value as the seed. -/
theorem chainPromises_all_success (tasks : List (Outcome α ε))
    (order : List Nat) (action : α → α → α) (v : α) (vs : List α)
    (hperm : order.Perm (List.range tasks.length))
    (hall : ∀ t ∈ tasks, t.isFulfilled = true)
    (hvals : successValues (settlementSeq tasks order) = v :: vs) :
    chainPromises tasks order action = PResult.resolved (vs.foldl action v) := by
  have hne : tasks ≠ [] := by
    intro h
    subst h
    rw [successValues_nil_of_empty order] at hvals
    exact List.noConfusion hvals
  exact chainPromises_of_values tasks order action v vs hperm hne hvals

/-- Witness for C1: tasks succeeding with `[1, 2, 3]` settling in input
order under addition give `6`. -/
theorem chainPromises_all_success_witness :
    chainPromises
      [Outcome.fulfilled 1, Outcome.fulfilled 2, Outcome.fulfilled 3]
      [0, 1, 2] (fun a b : Nat => a + b) (ε := String) =
      PResult.resolved 6 := by
  have h := chainPromises_all_success (ε := String)
    [Outcome.fulfilled 1, Outcome.fulfilled 2, Outcome.fulfilled 3]
    [0, 1, 2] (fun a b : Nat => a + b) 1 [2, 3]
    (by decide) (by decide) (by decide)
  simpa using h

/-- C2: when exactly `k` of the tasks succeed (`1 ≤ k < N`),
`chainPromises` resolves with the fold over only the `k` successful values
in settlement order; failed tasks contribute nothing. -/
theorem chainPromises_partial_success (tasks : List (Outcome α ε))
    (order : List Nat) (action : α → α → α) (v : α) (vs : List α)
    (hperm : order.Perm (List.range tasks.length))
    (hfail : ∃ t ∈ tasks, t.isFulfilled = false)
    (hvals : successValues (settlementSeq tasks order) = v :: vs) :
    chainPromises tasks order action = PResult.resolved (vs.foldl action v) := by
  have hne : tasks ≠ [] := by
    rcases hfail with ⟨t, ht, _⟩
    intro h
    subst h
    exact List.not_mem_nil t ht
  exact chainPromises_of_values tasks order action v vs hperm hne hvals

/-- Witness for C2: tasks `[resolve(5), reject('boom'), resolve(10)]`
under multiplication give `50`. -/
theorem chainPromises_partial_success_witness :
    chainPromises
      [Outcome.fulfilled 5, Outcome.rejected "boom", Outcome.fulfilled 10]
      [0, 1, 2] (fun a b : Nat => a * b) = PResult.resolved 50 := by
  have h := chainPromises_partial_success
    [Outcome.fulfilled 5, Outcome.rejected "boom", Outcome.fulfilled 10]
    [0, 1, 2] (fun a b : Nat => a * b) 5 [10]
    (by decide) (by decide) (by decide)
  simpa using h

/-- C3: the promise returned by `chainPromises` never rejects, whatever
the tasks, the settlement schedule, and the reducer: its executor has no
`reject`, and task failures are swallowed. -/
theorem chainPromises_never_rejects (tasks : List (Outcome α ε))
    (order : List Nat) (action : α → α → α) :
    (chainPromises tasks order action).isRejected = false := by
  unfold chainPromises
  split
  · rfl
  · split <;> rfl

/-- C4: `chainPromises` settles at most once and only after all `N` tasks
have settled: the inner `resolve` is called exactly once over the whole
run, after every strict prefix of the settlements it has not been called,
and the outer `res` is called at most once. -/
theorem chainPromises_finalizes_once (tasks : List (Outcome α ε))
    (order : List Nat) (action : α → α → α)
    (hperm : order.Perm (List.range tasks.length)) (hne : tasks ≠ []) :
    (runChain tasks.length (settlementSeq tasks order)).innerCalls = 1 ∧
    (∀ k, k < (settlementSeq tasks order).length →
      (runChain tasks.length ((settlementSeq tasks order).take k)).inner
        = none ∧
      (runChain tasks.length ((settlementSeq tasks order).take k)).innerCalls
        = 0) ∧
    chainResCalls tasks order action ≤ 1 := by
  have hinner := chain_inner_eq tasks order hperm hne
  refine ⟨by rw [hinner], ?_, ?_⟩
  · intro k hk
    have hlen := settlementSeq_length_of_perm tasks order hperm
    have hearly := foldl_chainStep_early tasks.length
      ((settlementSeq tasks order).take k) chainInit
      (by simp [chainInit, List.length_take]; omega)
    simpa [runChain, chainInit] using hearly
  · unfold chainResCalls
    split
    · omega
    · split <;> omega

/-- Witness for C4 at two tasks settling in input order. -/
theorem chainPromises_finalizes_once_witness :
    (runChain 2 (settlementSeq
        ([Outcome.fulfilled 1, Outcome.fulfilled 2] :
          List (Outcome Nat String)) [0, 1])).innerCalls = 1 ∧
    (∀ k, k < (settlementSeq
        ([Outcome.fulfilled 1, Outcome.fulfilled 2] :
          List (Outcome Nat String)) [0, 1]).length →
      (runChain 2 ((settlementSeq
        ([Outcome.fulfilled 1, Outcome.fulfilled 2] :
          List (Outcome Nat String)) [0, 1]).take k)).inner = none ∧
      (runChain 2 ((settlementSeq
        ([Outcome.fulfilled 1, Outcome.fulfilled 2] :
          List (Outcome Nat String)) [0, 1]).take k)).innerCalls = 0) ∧
    chainResCalls
      ([Outcome.fulfilled 1, Outcome.fulfilled 2] :
        List (Outcome Nat String)) [0, 1]
      (fun a b : Nat => a + b) ≤ 1 :=
  chainPromises_finalizes_once
    ([Outcome.fulfilled 1, Outcome.fulfilled 2] :
      List (Outcome Nat String)) [0, 1]
    (fun a b : Nat => a + b) (by decide) (by decide)

/-- C5 counterexample: with a single failing task (zero successes), the
trace of reducer invocations is empty — `[].reduce(action)` throws a
`TypeError` before ever calling the reducer, so the reducer is never
invoked, with undefined operands or otherwise. -/
theorem chainActionTrace_all_fail_empty :
    chainActionTrace [Outcome.rejected "boom"] [0]
      (fun a b : Nat => a * b) = [] := rfl

/-- C5 (amended): when zero tasks succeed, `chainPromises` never invokes
the reducer — the empty-array reduce throws before any invocation — and
the returned promise stays pending. -/
theorem chainPromises_no_success_no_call (tasks : List (Outcome α ε))
    (order : List Nat) (action : α → α → α)
    (hperm : order.Perm (List.range tasks.length)) (hne : tasks ≠ [])
    (hvals : successValues (settlementSeq tasks order) = []) :
    chainActionTrace tasks order action = [] ∧
    chainPromises tasks order action = PResult.pending := by
  have h := chainPromises_empty_success tasks order action hperm hne hvals
  exact ⟨h.2, h.1⟩

/-- Witness for C5 (amended) at one rejecting task. -/
theorem chainPromises_no_success_no_call_witness :
    chainActionTrace [Outcome.rejected "err"] [0]
      (fun a b : Nat => a + b) = [] ∧
    chainPromises [Outcome.rejected "err"] [0]
      (fun a b : Nat => a + b) = PResult.pending :=
  chainPromises_no_success_no_call [Outcome.rejected "err"] [0]
    (fun a b : Nat => a + b) (by decide) (by decide) (by decide)

/-- C6: when every task of a non-empty array fails, the promise returned
by `chainPromises` never settles: the inner promise resolves with an empty
`results` array, `[].reduce(action)` throws inside the `then` callback,
and the outer `res` is never reached. -/
theorem chainPromises_all_fail_pending (tasks : List (Outcome α ε))
    (order : List Nat) (action : α → α → α)
    (hperm : order.Perm (List.range tasks.length)) (hne : tasks ≠ [])
    (hfail : ∀ t ∈ tasks, t.isFulfilled = false) :
    chainPromises tasks order action = PResult.pending := by
  have hvals : successValues (settlementSeq tasks order) = [] := by
    rw [successValues, List.filterMap_eq_nil_iff]
    intro e he
    have hf := hfail e (mem_settlementSeq tasks order e he)
    cases e with
    | fulfilled v => simp [Outcome.isFulfilled] at hf
    | rejected err => rfl
  exact (chainPromises_empty_success tasks order action hperm hne hvals).1

/-- Witness for C6 at two rejecting tasks. -/
theorem chainPromises_all_fail_pending_witness :
    chainPromises [Outcome.rejected "a", Outcome.rejected "b"] [0, 1]
      (fun a b : Nat => a + b) = PResult.pending :=
  chainPromises_all_fail_pending
    [Outcome.rejected "a", Outcome.rejected "b"] [0, 1]
    (fun a b : Nat => a + b) (by decide) (by decide) (by decide)

/-- C7: for the single-task array `[resolve(v)]` and any reducer,
`chainPromises` resolves with `v` itself and the reducer is never
invoked (seed-only fold). -/
theorem chainPromises_single_task (action : α → α → α) (v : α) :
    chainPromises [Outcome.fulfilled v] [0] action (ε := ε) =
      PResult.resolved v ∧
    chainActionTrace [Outcome.fulfilled v] [0] action (ε := ε) = [] :=
  ⟨rfl, rfl⟩

/-- C8: `processAllPromises` settles identically to the aggregate-all
delegate it wraps: it resolves with the full-length, input-ordered value
sequence when every task succeeds, and rejects with the first failure's
error otherwise. -/
theorem processAllPromises_spec (tasks : List (Outcome α ε))
    (order : List Nat) :
    processAllPromises tasks order = toPResult (promiseAll tasks order) ∧
    ((∀ t ∈ tasks, t.isFulfilled = true) →
      processAllPromises tasks order =
        PResult.resolved (successValues tasks) ∧
      (successValues tasks).length = tasks.length) ∧
    (∀ e, firstRejection tasks order = some e →
      processAllPromises tasks order = PResult.rejectedWith e) := by
  refine ⟨?_, ?_, ?_⟩
  · cases h : promiseAll tasks order <;>
      simp [processAllPromises, toPResult, h]
  · intro hall
    have h1 := firstRejection_eq_none tasks order hall
    refine ⟨?_, successValues_length_of_all tasks hall⟩
    unfold processAllPromises promiseAll
    rw [h1]
  · intro e he
    unfold processAllPromises promiseAll
    rw [he]

/-- Witness for C8: a run where every task succeeds and a run where the
first task to settle with a failure determines the rejection. -/
theorem processAllPromises_spec_witness :
    processAllPromises
      ([Outcome.fulfilled 1, Outcome.fulfilled 2] :
        List (Outcome Nat String)) [0, 1] = PResult.resolved [1, 2] ∧
    processAllPromises
      [Outcome.fulfilled 1, Outcome.rejected "e", Outcome.fulfilled 3]
      [2, 1, 0] = PResult.rejectedWith "e" := by
  constructor
  · have h := (processAllPromises_spec
      ([Outcome.fulfilled 1, Outcome.fulfilled 2] :
        List (Outcome Nat String)) [0, 1]).2.1 (by decide)
    simpa using h.1
  · exact (processAllPromises_spec
      [Outcome.fulfilled 1, Outcome.rejected "e", Outcome.fulfilled 3]
      [2, 1, 0]).2.2 "e" (by decide)

/-- C9: `getFastestPromise` settles identically to whichever input task
settles first: resolved with its value if that task succeeds, rejected
with its error if it fails. -/
theorem getFastestPromise_first (tasks : List (Outcome α ε)) (i : Nat)
    (rest : List Nat) (h : i < tasks.length) :
    getFastestPromise tasks (i :: rest) = toPResult (tasks.get ⟨i, h⟩) := by
  have hr : promiseRace tasks (i :: rest) = tasks.get? i := rfl
  unfold getFastestPromise
  rw [hr, List.get?_eq_get h]
  cases tasks.get ⟨i, h⟩ <;> rfl

/-- Witness for C9: the second task settles first and rejects, so the
wrapper rejects with that task's error. -/
theorem getFastestPromise_first_witness :
    getFastestPromise
      ([Outcome.fulfilled 3, Outcome.rejected "late"] :
        List (Outcome Nat String)) [1, 0] = PResult.rejectedWith "late" := by
  have h := getFastestPromise_first
    ([Outcome.fulfilled 3, Outcome.rejected "late"] :
      List (Outcome Nat String)) 1 [0] (by decide)
  simpa using h

/-- C10: `willYouMarryMe` resolves with the "Yes" answer for `true`, the
"No" answer for `false`, and rejects with the wrong-parameter error
message for every non-boolean argument, including a missing one; the
unconditional `resolve` the executor then makes has no effect by the
single-settlement guarantee. -/
theorem willYouMarryMe_spec (arg : JSArg) :
    willYouMarryMe arg =
      match arg with
      | JSArg.boolean true => PResult.resolved "Hooray!!! She said \"Yes\"!"
      | JSArg.boolean false => PResult.resolved "Oh no, she said \"No\"."
      | _ => PResult.rejectedWith "Wrong parameter is passed! Ask her again."
    := by
  cases arg with
  | boolean b => cases b <;> rfl
  | undef => rfl
  | other t => rfl
